import Mathlib

/-!
# schemer: distinct-colour selection and the 16-colour relaxation loop

A shallow embedding of `main.go` of knopwob/schemer:

* `abs`, `colorDifference` (lines 32-49),
* `getDistinctColors` (lines 51-72),
* the part of `main` that follows the sampling (lines 117-133): the first call
  of `getDistinctColors`, the `for len(distinctColors) < 16` loop and the
  truncation to 16 entries.

Go's `int` is taken as the 64-bit two's complement integer of the usual
targets; arithmetic on it wraps (`wrapInt`).  A `uint8` channel is a `Fin 256`.
-/

namespace Schemer

/-! ## Data model -/

/-- The value type `color.NRGBA` of the Go standard library: four `uint8` channels. -/
structure NRGBA where
  R : Fin 256
  G : Fin 256
  B : Fin 256
  A : Fin 256
deriving DecidableEq, Repr

/-- The colour `color.NRGBAModel.Convert(color.Black)`: opaque black. -/
def black : NRGBA := ⟨0, 0, 0, 255⟩

/-- The colour `color.NRGBAModel.Convert(color.White)`: opaque white. -/
def white : NRGBA := ⟨255, 255, 255, 255⟩

/-- Two's complement wrap-around of a mathematical integer into the range of a
64-bit Go `int`. -/
def wrapInt (x : Int) : Int :=
  (x + 9223372036854775808) % 18446744073709551616 - 9223372036854775808

/-- The range of a 64-bit Go `int`. -/
def IsGoInt (x : Int) : Prop :=
  -9223372036854775808 ≤ x ∧ x < 9223372036854775808

instance (x : Int) : Decidable (IsGoInt x) := by
  unfold IsGoInt; infer_instance

/-! ## `abs` and `colorDifference` -/

/-- The function `abs` of `main.go` (lines 32-37); `-n` is a Go `int` negation. -/
def abs (n : Int) : Int :=
  if n ≥ 0 then n else wrapInt (-n)

/-- The local `total` of `colorDifference` (lines 40-47): the channels are
converted to `int` first, so every difference lies in `[-255, 255]` and the
sum in `[0, 765]`: no operation here can overflow.  The alpha channel is not
read. -/
def distance (c1 c2 : NRGBA) : Int :=
  let rDiff := abs ((c1.R.val : Int) - (c2.R.val : Int))
  let gDiff := abs ((c1.G.val : Int) - (c2.G.val : Int))
  let bDiff := abs ((c1.B.val : Int) - (c2.B.val : Int))
  rDiff + gDiff + bDiff

/-- The function `colorDifference` of `main.go` (lines 39-49):
`return total >= threshold`. -/
def colorDifference (col1 col2 : NRGBA) (threshold : Int) : Bool :=
  decide (distance col1 col2 ≥ threshold)

/-! ## `getDistinctColors` -/

/-- The inner loop of `getDistinctColors` (lines 61-66): `same` becomes true at
the first accepted colour `k` for which `colorDifference(c, k, threshold)` is
false. -/
def sameAsSome (c : NRGBA) (threshold : Int) : List NRGBA → Bool
  | [] => false
  | k :: ks => if !colorDifference c k threshold then true else sameAsSome c threshold ks

/-- The outer loop of `getDistinctColors` (lines 53-70), started with the
slice `distinctColors` built so far.  The two brightness tests use
`minBrightness*3` and `(255-maxBrightness)*3`, computed on Go `int`s. -/
def distinctLoop (threshold minBrightness maxBrightness : Int) :
    List NRGBA → List NRGBA → List NRGBA
  | [], distinctColors => distinctColors
  | c :: rest, distinctColors =>
    if !colorDifference c black (wrapInt (minBrightness * 3)) then
      distinctLoop threshold minBrightness maxBrightness rest distinctColors
    else if !colorDifference c white (wrapInt (wrapInt (255 - maxBrightness) * 3)) then
      distinctLoop threshold minBrightness maxBrightness rest distinctColors
    else if sameAsSome c threshold distinctColors then
      distinctLoop threshold minBrightness maxBrightness rest distinctColors
    else
      distinctLoop threshold minBrightness maxBrightness rest (distinctColors ++ [c])

/-- The function `getDistinctColors` of `main.go` (lines 51-72). -/
def getDistinctColors (colors : List NRGBA) (threshold minBrightness maxBrightness : Int) :
    List NRGBA :=
  distinctLoop threshold minBrightness maxBrightness colors []

/-! ## The relaxation loop of `main` -/

/-- How the part of `main` after the sampling ends: it goes on to the output
with the slice `distinctColors` (the palette), or it prints "Could not get
colors from image with settings specified. Aborting." and calls `os.Exit(1)`. -/
inductive Outcome where
  | palette (distinctColors : List NRGBA)
  | insufficient
deriving DecidableEq, Repr

/-- The loop `for len(distinctColors) < 16 { ... }` of `main` (lines 122-129),
from a state `(count, distinctColors)`.  `fuel` bounds the number of loop
bodies that are run; `none` means the fuel ran out with the loop still
running.  The result carries the number of loop bodies (relaxation rounds)
that were run, and the slice at the exit of the loop, or `none` for
`os.Exit(1)`. -/
def relaxLoop (colors : List NRGBA) (threshold minBrightness maxBrightness : Int) :
    Nat → Int → List NRGBA → Option (Nat × Option (List NRGBA))
  | fuel, count, distinctColors =>
    if distinctColors.length < 16 then
      match fuel with
      | 0 => none
      | fuel + 1 =>
        let count1 := wrapInt (count + 1)
        let distinctColors1 := distinctColors ++
          getDistinctColors colors (wrapInt (threshold - count1)) minBrightness maxBrightness
        if count1 = threshold then
          some (1, none)
        else
          (relaxLoop colors threshold minBrightness maxBrightness fuel count1 distinctColors1).map
            (fun r => (r.1 + 1, r.2))
    else
      some (0, some distinctColors)

/-- Lines 131-133 of `main`: `if len(distinctColors) > 16 { distinctColors = distinctColors[:16] }`. -/
def truncate16 (distinctColors : List NRGBA) : List NRGBA :=
  if distinctColors.length > 16 then distinctColors.take 16 else distinctColors

/-- Lines 117-133 of `main` (the Cardinality Enforcer): the first call of
`getDistinctColors`, the relaxation loop from `count = 0`, and the truncation.
The result is the number of relaxation rounds run and the outcome; `none`
means the fuel ran out. -/
def cardinalityEnforcer (fuel : Nat) (colors : List NRGBA)
    (threshold minBrightness maxBrightness : Int) : Option (Nat × Outcome) :=
  match relaxLoop colors threshold minBrightness maxBrightness fuel 0
      (getDistinctColors colors threshold minBrightness maxBrightness) with
  | none => none
  | some (rounds, none) => some (rounds, Outcome.insufficient)
  | some (rounds, some distinctColors) => some (rounds, Outcome.palette (truncate16 distinctColors))

/-- The colour `(v, v, v)` with full alpha. -/
def gray (v : Fin 256) : NRGBA := ⟨v, v, v, 255⟩

/-- The four samples of the scenario of section 8 of the specification. -/
def scenarioSamples : List NRGBA := [gray 0, gray 255, gray 120, gray 130]

/-! ## Notions used in the statements -/

/-- The distance of section 4.2 of the specification:
`|a.R-b.R| + |a.G-b.G| + |a.B-b.B|`, over the mathematical integers. -/
def specDistance (a b : NRGBA) : Int :=
  |(a.R.val : Int) - (b.R.val : Int)| + |(a.G.val : Int) - (b.G.val : Int)|
    + |(a.B.val : Int) - (b.B.val : Int)|

/-- The two brightness tests of `getDistinctColors` (lines 55-60), taken together. -/
def passesBrightness (minBrightness maxBrightness : Int) (c : NRGBA) : Bool :=
  colorDifference c black (wrapInt (minBrightness * 3)) &&
    colorDifference c white (wrapInt (wrapInt (255 - maxBrightness) * 3))

/-- The relation kept between an earlier and a later accepted colour. -/
def FarApart (t : Int) (a b : NRGBA) : Prop := t ≤ distance a b

/-- The value of the variable `count` of `main` after `k` executions of
`count++`, starting from `0`. -/
def countAfter (k : Nat) : Int := wrapInt (k : Int)

/-- The slice `distinctColors` of `main` after the first call of
`getDistinctColors` and `k` further relaxation rounds (lines 118 and 124),
if the loop runs that far. -/
def accAfter (colors : List NRGBA) (threshold minBrightness maxBrightness : Int) :
    Nat → List NRGBA
  | 0 => getDistinctColors colors threshold minBrightness maxBrightness
  | k + 1 => accAfter colors threshold minBrightness maxBrightness k ++
      getDistinctColors colors (wrapInt (threshold - countAfter (k + 1))) minBrightness
        maxBrightness

/-- Sixteen grey samples, 16 apart from one another in every channel. -/
def sixteenGrays : List NRGBA :=
  [gray 0, gray 16, gray 32, gray 48, gray 64, gray 80, gray 96, gray 112,
   gray 128, gray 144, gray 160, gray 176, gray 192, gray 208, gray 224, gray 240]

/-- The first eight of the grey samples above. -/
def eightGrays : List NRGBA :=
  [gray 0, gray 16, gray 32, gray 48, gray 64, gray 80, gray 96, gray 112]

/-- The concatenation `getDistinctColors(samples, t) ++ getDistinctColors(samples, t-1)
++ ... ++ getDistinctColors(samples, t-n)` of section 4.5 of the specification:
every round on the full sample sequence, the thresholds being mathematical
integers. -/
def roundsConcat (colors : List NRGBA) (t minBrightness maxBrightness : Int) :
    Nat → List NRGBA
  | 0 => getDistinctColors colors t minBrightness maxBrightness
  | n + 1 => roundsConcat colors t minBrightness maxBrightness n ++
      getDistinctColors colors (t - ((n + 1 : Nat) : Int)) minBrightness maxBrightness

/-- The position of `roundsConcat` at which the result of round `k` starts. -/
def roundOffset (colors : List NRGBA) (t minBrightness maxBrightness : Int) : Nat → Nat
  | 0 => 0
  | k + 1 => (roundsConcat colors t minBrightness maxBrightness k).length

/-! ## The flag checks and the sampler of `main` -/

/-- How the flag checks of `main` (lines 94-101) end: with the message
"Minimum and maximum brightness must be an integer between 0 and 255." and
`os.Exit(2)`, with the message "Threshold should be an integer between 0 and
255." and `os.Exit(2)`, or by going on to the sampling and the core. -/
inductive FlagCheck where
  | brightnessError
  | thresholdError
  | accepted
deriving DecidableEq, Repr

/-- The flag checks of `main` (lines 94-101):
`if *minBrightness > 255 || *maxBrightness > 255 { ...; os.Exit(2) }` and
`if *threshold > 255 { ...; os.Exit(2) }`. -/
def checkFlags (threshold minBrightness maxBrightness : Int) : FlagCheck :=
  if minBrightness > 255 ∨ maxBrightness > 255 then FlagCheck.brightnessError
  else if threshold > 255 then FlagCheck.thresholdError
  else FlagCheck.accepted

/-- A decoded image as `main` reads it (lines 108-113): `w` and `h` are
`img.Bounds().Max.X` and `img.Bounds().Max.Y` (the bounds start at the origin,
so both are sizes of a pixel grid held in memory, far below the range of
`int`), and `pixel x y` is `color.NRGBAModel.Convert(img.At(x, y))`. -/
structure Image where
  w : Nat
  h : Nat
  pixel : Nat → Nat → NRGBA

/-- The inner loop `for y := 0; y < h; y += fuzzyness` of `main` (lines
112-115), with `fuzzyness = 5`, from a state `(y, colors)` in column `x`.
`none` means the fuel ran out. -/
def sampleColumn (img : Image) (x : Nat) : Nat → Nat → List NRGBA → Option (List NRGBA)
  | fuel, y, colors =>
    if y < img.h then
      match fuel with
      | 0 => none
      | fuel + 1 => sampleColumn img x fuel (y + 5) (colors ++ [img.pixel x y])
    else
      some colors

/-- The outer loop `for x := 0; x < w; x += fuzzyness` of `main` (lines
111-116), from a state `(x, colors)`; every column starts at `y = 0` and gets
`h` rounds of fuel.  `none` means the fuel ran out. -/
def sampleImage (img : Image) : Nat → Nat → List NRGBA → Option (List NRGBA)
  | fuel, x, colors =>
    if x < img.w then
      match fuel with
      | 0 => none
      | fuel + 1 =>
        match sampleColumn img x img.h 0 colors with
        | none => none
        | some colors1 => sampleImage img fuel (x + 5) colors1
    else
      some colors

/-- The sampling of `main` (lines 107-116): both loops from `0` and the empty
slice, with `w` rounds of fuel for the columns. -/
def sampler (img : Image) : Option (List NRGBA) :=
  sampleImage img img.w 0 []

/-- The number `ceil(n/5)` of multiples of 5 below `n`. -/
def ceilDiv5 (n : Nat) : Nat := (n + 4) / 5

/-- The sample sequence of section 4.1 of the specification: the pixels at
`(5*i, 5*j)` for `5*i < W`, `5*j < H`, the `x` coordinate in the outer
position. -/
def specSamples (img : Image) : List NRGBA :=
  (List.range (ceilDiv5 img.w)).flatMap
    (fun i => (List.range (ceilDiv5 img.h)).map (fun j => img.pixel (5 * i) (5 * j)))

/-- The Brightness Filter of section 4.3 of the specification: a colour is
rejected if `distance(c, black) < 3 * minBrightness` or
`distance(c, white) < 3 * (255 - maxBrightness)`. -/
def specPassesBrightness (minBrightness maxBrightness : Int) (c : NRGBA) : Bool :=
  !(decide (specDistance c black < 3 * minBrightness) ||
    decide (specDistance c white < 3 * (255 - maxBrightness)))

/-- The fully transparent pixel, `color.NRGBA` with all four channels 0. -/
def transparent : NRGBA := ⟨0, 0, 0, 0⟩

/-- An image of 10 by 5 pixels: transparent in column 0, opaque black elsewhere. -/
def twoColumnImage : Image :=
  ⟨10, 5, fun x _ => if x = 0 then transparent else black⟩

/-- An image of 12 by 7 pixels whose pixel at `(x, y)` has red `x`, green `y`. -/
def gradientImage : Image :=
  ⟨12, 7, fun x y => ⟨Fin.ofNat x, Fin.ofNat y, 0, 255⟩⟩

/-! ## Arithmetic of the embedding -/

theorem wrapInt_eq_self {x : Int} (h : IsGoInt x) : wrapInt x = x := by
  unfold IsGoInt at h
  unfold wrapInt
  omega

theorem isGoInt_wrapInt (x : Int) : IsGoInt (wrapInt x) := by
  unfold IsGoInt wrapInt
  omega

theorem wrapInt_succ_wrapInt (x : Int) : wrapInt (wrapInt x + 1) = wrapInt (x + 1) := by
  unfold wrapInt
  omega

theorem abs_eq_abs {n : Int} (h : IsGoInt n) (h1 : n ≠ -9223372036854775808) :
    abs n = |n| := by
  unfold IsGoInt at h
  unfold abs
  split
  · rw [abs_of_nonneg (by omega)]
  · rw [wrapInt_eq_self (by unfold IsGoInt; omega), abs_of_neg (by omega)]

theorem abs_channel (x y : Fin 256) :
    abs ((x.val : Int) - (y.val : Int)) = |(x.val : Int) - (y.val : Int)| := by
  have hx := x.isLt
  have hy := y.isLt
  apply abs_eq_abs
  · unfold IsGoInt; omega
  · omega

theorem distance_eq (a b : NRGBA) :
    distance a b = |(a.R.val : Int) - (b.R.val : Int)| + |(a.G.val : Int) - (b.G.val : Int)|
      + |(a.B.val : Int) - (b.B.val : Int)| := by
  simp only [distance, abs_channel]

theorem distance_comm (a b : NRGBA) : distance a b = distance b a := by
  simp only [distance_eq, abs_sub_comm]

theorem distance_nonneg (a b : NRGBA) : 0 ≤ distance a b := by
  rw [distance_eq]
  positivity

theorem colorDifference_iff (a b : NRGBA) (t : Int) :
    colorDifference a b t = true ↔ t ≤ distance a b := by
  simp [colorDifference]

/-! ## The builder `getDistinctColors` -/

theorem sameAsSome_eq_false_iff (c : NRGBA) (t : Int) (ks : List NRGBA) :
    sameAsSome c t ks = false ↔ ∀ k ∈ ks, t ≤ distance c k := by
  induction ks with
  | nil => simp [sameAsSome]
  | cons k ks ih =>
    simp only [sameAsSome, List.mem_cons, forall_eq_or_imp, ← colorDifference_iff]
    cases h : colorDifference c k t <;> simp [ih, colorDifference_iff]

theorem distinctLoop_cons (t minB maxB : Int) (c : NRGBA) (rest acc : List NRGBA) :
    distinctLoop t minB maxB (c :: rest) acc =
      distinctLoop t minB maxB rest
        (if passesBrightness minB maxB c && !sameAsSome c t acc then acc ++ [c] else acc) := by
  simp only [distinctLoop, passesBrightness]
  split_ifs <;> simp_all

theorem distinctLoop_pairwise (t minB maxB : Int) (colors acc : List NRGBA)
    (h : acc.Pairwise (FarApart t)) :
    (distinctLoop t minB maxB colors acc).Pairwise (FarApart t) := by
  induction colors generalizing acc with
  | nil => simpa [distinctLoop] using h
  | cons c rest ih =>
    rw [distinctLoop_cons]
    apply ih
    split
    · rename_i hc
      simp only [Bool.and_eq_true, Bool.not_eq_true', sameAsSome_eq_false_iff] at hc
      rw [List.pairwise_append]
      refine ⟨h, List.pairwise_singleton _ _, ?_⟩
      intro a ha b hb
      simp only [List.mem_singleton] at hb
      subst hb
      unfold FarApart
      rw [distance_comm]
      exact hc.2 a ha
    · exact h

theorem getDistinctColors_pairwise (colors : List NRGBA) (t minB maxB : Int) :
    (getDistinctColors colors t minB maxB).Pairwise (FarApart t) :=
  distinctLoop_pairwise t minB maxB colors [] List.Pairwise.nil

theorem distinctLoop_forall_passes (t minB maxB : Int) (colors acc : List NRGBA)
    (h : ∀ c ∈ acc, passesBrightness minB maxB c = true) :
    ∀ c ∈ distinctLoop t minB maxB colors acc, passesBrightness minB maxB c = true := by
  induction colors generalizing acc with
  | nil => simpa [distinctLoop] using h
  | cons c rest ih =>
    rw [distinctLoop_cons]
    apply ih
    split
    · rename_i hc
      simp only [Bool.and_eq_true] at hc
      intro x hx
      simp only [List.mem_append, List.mem_singleton] at hx
      rcases hx with hx | hx
      · exact h x hx
      · subst hx; exact hc.1
    · exact h

theorem getDistinctColors_forall_passes (colors : List NRGBA) (t minB maxB : Int) :
    ∀ c ∈ getDistinctColors colors t minB maxB, passesBrightness minB maxB c = true :=
  distinctLoop_forall_passes t minB maxB colors [] (by simp)

theorem passesBrightness_iff {minB maxB : Int} (hmin : 0 ≤ minB ∧ minB ≤ 255)
    (hmax : 0 ≤ maxB ∧ maxB ≤ 255) (c : NRGBA) :
    passesBrightness minB maxB c = true ↔
      3 * minB ≤ distance c black ∧ 3 * (255 - maxB) ≤ distance c white := by
  have h1 : wrapInt (minB * 3) = 3 * minB := by
    rw [wrapInt_eq_self (by unfold IsGoInt; omega)]; ring
  have h2 : wrapInt (wrapInt (255 - maxB) * 3) = 3 * (255 - maxB) := by
    rw [wrapInt_eq_self (x := 255 - maxB) (by unfold IsGoInt; omega),
      wrapInt_eq_self (by unfold IsGoInt; omega)]; ring
  simp only [passesBrightness, Bool.and_eq_true, colorDifference_iff, h1, h2]

theorem distance_black (c : NRGBA) :
    distance c black = (c.R.val : Int) + (c.G.val : Int) + (c.B.val : Int) := by
  rw [distance_eq]
  simp only [black]
  have h1 : |(c.R.val : Int) - ((0 : Fin 256).val : Int)| = c.R.val := by
    rw [abs_of_nonneg] <;> simp
  have h2 : |(c.G.val : Int) - ((0 : Fin 256).val : Int)| = c.G.val := by
    rw [abs_of_nonneg] <;> simp
  have h3 : |(c.B.val : Int) - ((0 : Fin 256).val : Int)| = c.B.val := by
    rw [abs_of_nonneg] <;> simp
  rw [h1, h2, h3]

theorem distance_white (c : NRGBA) :
    distance c white = 765 - ((c.R.val : Int) + (c.G.val : Int) + (c.B.val : Int)) := by
  rw [distance_eq]
  simp only [white]
  have hr := c.R.isLt
  have hg := c.G.isLt
  have hb := c.B.isLt
  have e : ((255 : Fin 256).val : Int) = 255 := rfl
  rw [e, abs_of_nonpos (by omega), abs_of_nonpos (by omega), abs_of_nonpos (by omega)]
  ring


theorem specDistance_eq (a b : NRGBA) : specDistance a b = distance a b :=
  (distance_eq a b).symm

theorem distinctLoop_eq_append (t minB maxB : Int) (colors : List NRGBA) :
    ∀ acc : List NRGBA, ∃ l, distinctLoop t minB maxB colors acc = acc ++ l ∧
      l.Sublist (colors.filter (passesBrightness minB maxB)) := by
  induction colors with
  | nil => intro acc; exact ⟨[], by simp [distinctLoop], List.Sublist.refl _⟩
  | cons c rest ih =>
    intro acc
    rw [distinctLoop_cons]
    by_cases hp : passesBrightness minB maxB c = true
    · by_cases hs : sameAsSome c t acc = true
      · obtain ⟨l, hl, hsub⟩ := ih acc
        refine ⟨l, by simp [hp, hs, hl], ?_⟩
        rw [List.filter_cons_of_pos hp]
        exact List.Sublist.cons _ hsub
      · obtain ⟨l, hl, hsub⟩ := ih (acc ++ [c])
        refine ⟨c :: l, by simp [hp, hs, hl], ?_⟩
        rw [List.filter_cons_of_pos hp]
        exact List.Sublist.cons₂ _ hsub
    · obtain ⟨l, hl, hsub⟩ := ih acc
      refine ⟨l, by simp [hp, hl], ?_⟩
      rw [List.filter_cons_of_neg hp]
      exact hsub

theorem sameAsSome_nonpos {t : Int} (ht : t ≤ 0) (c : NRGBA) (ks : List NRGBA) :
    sameAsSome c t ks = false := by
  rw [sameAsSome_eq_false_iff]
  intro k _
  exact le_trans ht (distance_nonneg c k)

theorem distinctLoop_nonpos {t : Int} (ht : t ≤ 0) (minB maxB : Int) (colors : List NRGBA) :
    ∀ acc : List NRGBA, distinctLoop t minB maxB colors acc =
      acc ++ colors.filter (passesBrightness minB maxB) := by
  induction colors with
  | nil => intro acc; simp [distinctLoop]
  | cons c rest ih =>
    intro acc
    rw [distinctLoop_cons, ih, sameAsSome_nonpos ht]
    by_cases hp : passesBrightness minB maxB c = true
    · simp [hp]
    · simp [hp]

theorem getDistinctColors_nonpos {t : Int} (ht : t ≤ 0) (colors : List NRGBA)
    (minB maxB : Int) :
    getDistinctColors colors t minB maxB = colors.filter (passesBrightness minB maxB) := by
  unfold getDistinctColors
  rw [distinctLoop_nonpos ht]
  rfl

theorem getDistinctColors_length_le (colors : List NRGBA) (t minB maxB : Int) :
    (getDistinctColors colors t minB maxB).length ≤
      (getDistinctColors colors 0 minB maxB).length := by
  rw [getDistinctColors_nonpos (le_refl 0)]
  obtain ⟨l, hl, hsub⟩ := distinctLoop_eq_append t minB maxB colors []
  unfold getDistinctColors
  rw [hl]
  simpa using hsub.length_le

/-! ## The relaxation loop -/

theorem countAfter_zero : countAfter 0 = 0 := by
  simp [countAfter, wrapInt]

theorem countAfter_succ (k : Nat) : wrapInt (countAfter k + 1) = countAfter (k + 1) := by
  unfold countAfter
  rw [wrapInt_succ_wrapInt]
  push_cast
  rfl

theorem countAfter_eq {k : Nat} (h : (k : Int) < 9223372036854775808) : countAfter k = k := by
  unfold countAfter
  apply wrapInt_eq_self
  unfold IsGoInt
  omega

/-- One unfolding of the loop at the state reached after `m` rounds. -/
theorem relaxLoop_step (colors : List NRGBA) (t minB maxB : Int) (fuel m : Nat) :
    relaxLoop colors t minB maxB fuel (countAfter m) (accAfter colors t minB maxB m) =
      if (accAfter colors t minB maxB m).length < 16 then
        match fuel with
        | 0 => none
        | f + 1 =>
          if countAfter (m + 1) = t then some (1, none)
          else (relaxLoop colors t minB maxB f (countAfter (m + 1))
            (accAfter colors t minB maxB (m + 1))).map (fun r => (r.1 + 1, r.2))
      else some (0, some (accAfter colors t minB maxB m)) := by
  cases fuel with
  | zero => rw [relaxLoop]
  | succ f => rw [relaxLoop]; simp only [countAfter_succ, accAfter]

/-- What an exit of the loop through its condition says about the rounds run. -/
theorem relaxLoop_done (colors : List NRGBA) (t minB maxB : Int) (fuel : Nat) :
    ∀ (m n : Nat) (out : List NRGBA),
      relaxLoop colors t minB maxB fuel (countAfter m) (accAfter colors t minB maxB m)
        = some (n, some out) →
      out = accAfter colors t minB maxB (m + n) ∧ 16 ≤ out.length ∧ n ≤ fuel ∧
      (∀ k, m ≤ k → k < m + n → (accAfter colors t minB maxB k).length < 16) ∧
      (∀ k, m < k → k ≤ m + n → countAfter k ≠ t) := by
  induction fuel with
  | zero =>
    intro m n out h
    rw [relaxLoop_step] at h
    split at h
    · simp at h
    · rename_i hlen
      simp only [Option.some.injEq, Prod.mk.injEq] at h
      obtain ⟨rfl, rfl⟩ := h
      refine ⟨rfl, by simpa using hlen, le_refl _, ?_, ?_⟩ <;> intro k h1 h2 <;> omega
  | succ f ih =>
    intro m n out h
    rw [relaxLoop_step] at h
    split at h
    · rename_i hlen
      simp only at h
      split at h
      · simp at h
      · rename_i hne
        rw [Option.map_eq_some'] at h
        obtain ⟨⟨n1, r⟩, hrec, hr⟩ := h
        simp only [Prod.mk.injEq] at hr
        obtain ⟨rfl, rfl⟩ := hr
        obtain ⟨h1, h2, h3, h4, h5⟩ := ih (m + 1) n1 out hrec
        refine ⟨by rw [h1, show m + 1 + n1 = m + (n1 + 1) by omega], h2, by omega, ?_, ?_⟩
        · intro k hk1 hk2
          rcases Nat.eq_or_lt_of_le hk1 with rfl | hlt
          · exact hlen
          · exact h4 k (by omega) (by omega)
        · intro k hk1 hk2
          rcases Nat.eq_or_lt_of_le (Nat.succ_le_of_lt hk1) with heq | hlt
          · rw [← heq]; exact hne
          · exact h5 k (by omega) (by omega)
    · rename_i hlen
      simp only [Option.some.injEq, Prod.mk.injEq] at h
      obtain ⟨rfl, rfl⟩ := h
      refine ⟨rfl, by simpa using hlen, Nat.zero_le _, ?_, ?_⟩ <;> intro k h1 h2 <;> omega

/-- What an exit of the loop through `os.Exit(1)` says about the rounds run. -/
theorem relaxLoop_abort (colors : List NRGBA) (t minB maxB : Int) (fuel : Nat) :
    ∀ (m n : Nat),
      relaxLoop colors t minB maxB fuel (countAfter m) (accAfter colors t minB maxB m)
        = some (n, none) →
      1 ≤ n ∧ n ≤ fuel ∧ countAfter (m + n) = t ∧
      (∀ k, m ≤ k → k < m + n → (accAfter colors t minB maxB k).length < 16) ∧
      (∀ k, m < k → k < m + n → countAfter k ≠ t) := by
  induction fuel with
  | zero =>
    intro m n h
    rw [relaxLoop_step] at h
    split at h <;> simp at h
  | succ f ih =>
    intro m n h
    rw [relaxLoop_step] at h
    split at h
    · rename_i hlen
      simp only at h
      split at h
      · rename_i heq
        simp only [Option.some.injEq, Prod.mk.injEq, and_true] at h
        subst h
        refine ⟨le_refl _, by omega, heq, ?_, ?_⟩
        · intro k hk1 hk2
          have : k = m := by omega
          subst this
          exact hlen
        · intro k hk1 hk2
          omega
      · rename_i hne
        rw [Option.map_eq_some'] at h
        obtain ⟨⟨n1, r⟩, hrec, hr⟩ := h
        simp only [Prod.mk.injEq] at hr
        obtain ⟨rfl, rfl⟩ := hr
        obtain ⟨h1, h2, h3, h4, h5⟩ := ih (m + 1) n1 hrec
        refine ⟨by omega, by omega,
          by rw [show m + (n1 + 1) = m + 1 + n1 by omega]; exact h3, ?_, ?_⟩
        · intro k hk1 hk2
          rcases Nat.eq_or_lt_of_le hk1 with rfl | hlt
          · exact hlen
          · exact h4 k (by omega) (by omega)
        · intro k hk1 hk2
          rcases Nat.eq_or_lt_of_le (Nat.succ_le_of_lt hk1) with heq | hlt
          · rw [← heq]; exact hne
          · exact h5 k (by omega) (by omega)
    · simp at h

/-- The loop aborts in round `n` when no earlier round reached 16 entries or
the budget, and `count` equals the threshold in round `n`. -/
theorem relaxLoop_abort_of (colors : List NRGBA) (t minB maxB : Int) (n : Nat) :
    ∀ (fuel m : Nat), 1 ≤ n → n ≤ fuel → countAfter (m + n) = t →
      (∀ k, m ≤ k → k < m + n → (accAfter colors t minB maxB k).length < 16) →
      (∀ k, m < k → k < m + n → countAfter k ≠ t) →
      relaxLoop colors t minB maxB fuel (countAfter m) (accAfter colors t minB maxB m)
        = some (n, none) := by
  induction n with
  | zero => intro fuel m h; omega
  | succ n ih =>
    intro fuel m _ hfuel hcount hlen hne
    obtain ⟨f, rfl⟩ : ∃ f, fuel = f + 1 := ⟨fuel - 1, by omega⟩
    rw [relaxLoop_step, if_pos (hlen m (le_refl _) (by omega))]
    simp only
    rcases Nat.eq_zero_or_pos n with rfl | hpos
    · rw [if_pos (by simpa using hcount)]
    · rw [if_neg (hne (m + 1) (by omega) (by omega)),
        ih f (m + 1) hpos (by omega)
          (by rw [show m + 1 + n = m + (n + 1) by omega]; exact hcount)
          (fun k h1 h2 => hlen k (by omega) (by omega))
          (fun k h1 h2 => hne k (by omega) (by omega))]
      rfl

/-- The loop leaves through its condition after round `n` when no earlier
round reached 16 entries, no round up to `n` hit the budget, and round `n`
reached 16 entries. -/
theorem relaxLoop_done_of (colors : List NRGBA) (t minB maxB : Int) (n : Nat) :
    ∀ (fuel m : Nat), n ≤ fuel →
      (∀ k, m ≤ k → k < m + n → (accAfter colors t minB maxB k).length < 16) →
      (∀ k, m < k → k ≤ m + n → countAfter k ≠ t) →
      16 ≤ (accAfter colors t minB maxB (m + n)).length →
      relaxLoop colors t minB maxB fuel (countAfter m) (accAfter colors t minB maxB m)
        = some (n, some (accAfter colors t minB maxB (m + n))) := by
  induction n with
  | zero =>
    intro fuel m _ _ _ h16
    rw [relaxLoop_step, if_neg (by simpa using h16)]
    rfl
  | succ n ih =>
    intro fuel m hfuel hlen hne h16
    obtain ⟨f, rfl⟩ : ∃ f, fuel = f + 1 := ⟨fuel - 1, by omega⟩
    rw [relaxLoop_step, if_pos (hlen m (le_refl _) (by omega))]
    simp only
    rw [if_neg (hne (m + 1) (by omega) (by omega)),
      ih f (m + 1) (by omega) (fun k h1 h2 => hlen k (by omega) (by omega))
        (fun k h1 h2 => hne k (by omega) (by omega))
        (by rw [show m + 1 + n = m + (n + 1) by omega]; exact h16)]
    simp only [Option.map_some', show m + 1 + n = m + (n + 1) by omega]

/-- The loop always ends: `count` runs through the whole range of `int` and
meets the threshold after at most `2^64` rounds. -/
theorem relaxLoop_terminates (colors : List NRGBA) (t minB maxB : Int) (ht : IsGoInt t)
    (fuel : Nat) :
    ∀ (count : Int) (acc : List NRGBA), IsGoInt count →
      (t - count - 1) % 18446744073709551616 + 1 ≤ (fuel : Int) →
      relaxLoop colors t minB maxB fuel count acc ≠ none := by
  induction fuel with
  | zero =>
    intro count acc _ h
    exfalso
    have := Int.emod_nonneg (t - count - 1) (b := 18446744073709551616) (by decide)
    omega
  | succ f ih =>
    intro count acc hc h
    rw [relaxLoop]
    split
    · simp only
      split
      · simp
      · rename_i hne
        have hrec := ih (wrapInt (count + 1))
          (acc ++ getDistinctColors colors (wrapInt (t - wrapInt (count + 1))) minB maxB)
          (isGoInt_wrapInt _)
          (by
            unfold IsGoInt at ht hc
            unfold wrapInt at hne ⊢
            push_cast at h
            omega)
        intro hcon
        rw [Option.map_eq_none'] at hcon
        exact hrec hcon
    · simp

/-! ## The Cardinality Enforcer -/

theorem cardinalityEnforcer_eq (fuel : Nat) (colors : List NRGBA) (t minB maxB : Int) :
    cardinalityEnforcer fuel colors t minB maxB =
      match relaxLoop colors t minB maxB fuel (countAfter 0) (accAfter colors t minB maxB 0) with
      | none => none
      | some (rounds, none) => some (rounds, Outcome.insufficient)
      | some (rounds, some out) => some (rounds, Outcome.palette (truncate16 out)) := by
  rw [countAfter_zero]
  rfl

theorem cardinalityEnforcer_palette {fuel : Nat} {colors : List NRGBA} {t minB maxB : Int}
    {n : Nat} {p : List NRGBA}
    (h : cardinalityEnforcer fuel colors t minB maxB = some (n, Outcome.palette p)) :
    p = truncate16 (accAfter colors t minB maxB n) ∧
      16 ≤ (accAfter colors t minB maxB n).length ∧ n ≤ fuel ∧
      (∀ k, k < n → (accAfter colors t minB maxB k).length < 16) ∧
      (∀ k, 0 < k → k ≤ n → countAfter k ≠ t) := by
  rw [cardinalityEnforcer_eq] at h
  split at h
  · simp at h
  · simp at h
  · rename_i rounds out hloop
    simp only [Option.some.injEq, Prod.mk.injEq, Outcome.palette.injEq] at h
    obtain ⟨rfl, rfl⟩ := h
    obtain ⟨h1, h2, h3, h4, h5⟩ := relaxLoop_done colors t minB maxB fuel 0 rounds out hloop
    simp only [Nat.zero_add] at h1 h4 h5
    subst h1
    exact ⟨rfl, h2, h3, fun k hk => h4 k (Nat.zero_le _) hk, h5⟩

theorem cardinalityEnforcer_insufficient {fuel : Nat} {colors : List NRGBA} {t minB maxB : Int}
    {n : Nat} (h : cardinalityEnforcer fuel colors t minB maxB = some (n, Outcome.insufficient)) :
    1 ≤ n ∧ n ≤ fuel ∧ countAfter n = t ∧
      (∀ k, k < n → (accAfter colors t minB maxB k).length < 16) ∧
      (∀ k, 0 < k → k < n → countAfter k ≠ t) := by
  rw [cardinalityEnforcer_eq] at h
  split at h
  · simp at h
  · rename_i rounds hloop
    simp only [Option.some.injEq, Prod.mk.injEq, and_true] at h
    subst h
    obtain ⟨h1, h2, h3, h4, h5⟩ := relaxLoop_abort colors t minB maxB fuel 0 rounds hloop
    simp only [Nat.zero_add] at h3 h4 h5
    exact ⟨h1, h2, h3, fun k hk => h4 k (Nat.zero_le _) hk, h5⟩
  · simp at h

theorem cardinalityEnforcer_insufficient_of {fuel : Nat} {colors : List NRGBA}
    {t minB maxB : Int} {n : Nat} (hn : 1 ≤ n) (hfuel : n ≤ fuel) (hcount : countAfter n = t)
    (hlen : ∀ k, k < n → (accAfter colors t minB maxB k).length < 16)
    (hne : ∀ k, 0 < k → k < n → countAfter k ≠ t) :
    cardinalityEnforcer fuel colors t minB maxB = some (n, Outcome.insufficient) := by
  rw [cardinalityEnforcer_eq,
    relaxLoop_abort_of colors t minB maxB n fuel 0 hn hfuel (by simpa using hcount)
      (fun k _ h2 => hlen k (by omega)) (fun k h1 h2 => hne k h1 (by omega))]

theorem cardinalityEnforcer_palette_of {fuel : Nat} {colors : List NRGBA}
    {t minB maxB : Int} {n : Nat} (hfuel : n ≤ fuel)
    (hlen : ∀ k, k < n → (accAfter colors t minB maxB k).length < 16)
    (hne : ∀ k, 0 < k → k ≤ n → countAfter k ≠ t)
    (h16 : 16 ≤ (accAfter colors t minB maxB n).length) :
    cardinalityEnforcer fuel colors t minB maxB =
      some (n, Outcome.palette (truncate16 (accAfter colors t minB maxB n))) := by
  rw [cardinalityEnforcer_eq,
    relaxLoop_done_of colors t minB maxB n fuel 0 hfuel
      (fun k _ h2 => hlen k (by omega)) (fun k h1 h2 => hne k h1 (by omega))
      (by simpa using h16)]
  simp only [Nat.zero_add]

theorem truncate16_length {l : List NRGBA} (h : 16 ≤ l.length) : (truncate16 l).length = 16 := by
  unfold truncate16
  split
  · simp [List.length_take]; omega
  · omega

theorem truncate16_eq_take (l : List NRGBA) : truncate16 l = l.take 16 := by
  unfold truncate16
  split
  · rfl
  · rw [List.take_of_length_le (by omega)]

theorem accAfter_forall_passes (colors : List NRGBA) (t minB maxB : Int) (k : Nat) :
    ∀ c ∈ accAfter colors t minB maxB k, passesBrightness minB maxB c = true := by
  induction k with
  | zero => exact getDistinctColors_forall_passes colors t minB maxB
  | succ k ih =>
    intro c hc
    simp only [accAfter, List.mem_append] at hc
    rcases hc with hc | hc
    · exact ih c hc
    · exact getDistinctColors_forall_passes colors _ minB maxB c hc

theorem accAfter_length_le (colors : List NRGBA) (t minB maxB : Int) (k : Nat) :
    (accAfter colors t minB maxB k).length ≤
      (k + 1) * (getDistinctColors colors 0 minB maxB).length := by
  induction k with
  | zero => simpa using getDistinctColors_length_le colors t minB maxB
  | succ k ih =>
    simp only [accAfter, List.length_append]
    have := getDistinctColors_length_le colors (wrapInt (t - countAfter (k + 1))) minB maxB
    calc _ ≤ (k + 1) * (getDistinctColors colors 0 minB maxB).length
          + (getDistinctColors colors 0 minB maxB).length := Nat.add_le_add ih this
      _ = (k + 1 + 1) * (getDistinctColors colors 0 minB maxB).length := by ring

theorem accAfter_length_nonpos (colors : List NRGBA) {t : Int} (minB maxB : Int)
    (ht : t ≤ 0) (hlow : IsGoInt (t - 16)) (k : Nat) (hk : k ≤ 16) :
    (accAfter colors t minB maxB k).length =
      (k + 1) * (getDistinctColors colors 0 minB maxB).length := by
  induction k with
  | zero =>
    simp only [accAfter, Nat.zero_add, Nat.one_mul]
    rw [getDistinctColors_nonpos ht, getDistinctColors_nonpos (le_refl 0)]
  | succ k ih =>
    simp only [accAfter, List.length_append]
    rw [ih (by omega)]
    have h1 : countAfter (k + 1) = ((k + 1 : Nat) : Int) := countAfter_eq (by omega)
    have h2 : wrapInt (t - countAfter (k + 1)) ≤ 0 := by
      rw [h1, wrapInt_eq_self (by unfold IsGoInt at hlow ⊢; push_cast; omega)]
      push_cast
      omega
    rw [getDistinctColors_nonpos h2, getDistinctColors_nonpos (le_refl 0)]
    ring

/-- In a run that ends with a palette after `n` rounds no threshold
computation wraps: each round `k ≤ n` is run at the threshold `t - k`. -/
theorem round_threshold_of_success (colors : List NRGBA) {t : Int} (minB maxB : Int) {n : Nat}
    (ht : IsGoInt t) (hlow : IsGoInt (t - 16))
    (h16 : 16 ≤ (accAfter colors t minB maxB n).length)
    (hlen : ∀ k, k < n → (accAfter colors t minB maxB k).length < 16)
    (hne : ∀ k, 0 < k → k ≤ n → countAfter k ≠ t) :
    ∀ k, k ≤ n → wrapInt (t - countAfter k) = t - (k : Int) := by
  have hbound : (n : Int) < t ∨ n ≤ 16 := by
    by_cases hpos : 1 ≤ t
    · left
      by_contra hcon
      have hk : countAfter t.toNat = t := by
        rw [countAfter_eq (by unfold IsGoInt at ht; omega)]
        omega
      exact hne t.toNat (by omega) (by omega) hk
    · right
      by_contra hcon
      have h1 := hlen 16 (by omega)
      rw [accAfter_length_nonpos colors minB maxB (by omega) hlow 16 (le_refl _)] at h1
      have h2 : (getDistinctColors colors 0 minB maxB).length = 0 := by omega
      have h3 := accAfter_length_le colors t minB maxB n
      rw [h2] at h3
      omega
  intro k hk
  unfold IsGoInt at ht hlow
  rw [countAfter_eq (by omega), wrapInt_eq_self (by unfold IsGoInt; omega)]

theorem accAfter_eq_roundsConcat (colors : List NRGBA) (t minB maxB : Int) (n : Nat)
    (hw : ∀ k, k ≤ n → wrapInt (t - countAfter k) = t - (k : Int)) :
    ∀ k, k ≤ n → accAfter colors t minB maxB k = roundsConcat colors t minB maxB k := by
  intro k
  induction k with
  | zero => intro _; rfl
  | succ k ih =>
    intro hk
    simp only [accAfter, roundsConcat]
    rw [ih (by omega), hw (k + 1) hk]

theorem palette_eq_take_roundsConcat {colors : List NRGBA} {t minB maxB : Int}
    (ht : IsGoInt t) (hlow : IsGoInt (t - 16)) {fuel n : Nat} {p : List NRGBA}
    (h : cardinalityEnforcer fuel colors t minB maxB = some (n, Outcome.palette p)) :
    p = (roundsConcat colors t minB maxB n).take 16 := by
  obtain ⟨rfl, h16, -, hlen, hne⟩ := cardinalityEnforcer_palette h
  rw [truncate16_eq_take,
    accAfter_eq_roundsConcat colors t minB maxB n
      (round_threshold_of_success colors minB maxB ht hlow h16 hlen hne) n (le_refl _)]

theorem roundsConcat_split (colors : List NRGBA) (t minB maxB : Int) (k d : Nat) :
    ∃ tl, roundsConcat colors t minB maxB (k + d) = roundsConcat colors t minB maxB k ++ tl := by
  induction d with
  | zero => exact ⟨[], by simp⟩
  | succ d ih =>
    obtain ⟨tl, htl⟩ := ih
    refine ⟨tl ++ getDistinctColors colors (t - ((k + d + 1 : Nat) : Int)) minB maxB, ?_⟩
    rw [← Nat.add_assoc, roundsConcat, htl, List.append_assoc]

theorem roundsConcat_eq_offset (colors : List NRGBA) (t minB maxB : Int) (k : Nat) :
    ∃ pre, roundsConcat colors t minB maxB k =
        pre ++ getDistinctColors colors (t - (k : Int)) minB maxB ∧
      pre.length = roundOffset colors t minB maxB k := by
  cases k with
  | zero => exact ⟨[], by simp [roundsConcat, roundOffset], rfl⟩
  | succ k => exact ⟨roundsConcat colors t minB maxB k, rfl, rfl⟩

/-- An entry of the palette at position `roundOffset k + i`, with `i` inside
the result of round `k`, is entry `i` of that round's result. -/
theorem palette_entry_of_round {colors : List NRGBA} {t minB maxB : Int} {n k i : Nat}
    {a : NRGBA} (hk : k ≤ n)
    (hi : i < (getDistinctColors colors (t - (k : Int)) minB maxB).length)
    (ha : ((roundsConcat colors t minB maxB n).take 16)[roundOffset colors t minB maxB k + i]?
      = some a) :
    (getDistinctColors colors (t - (k : Int)) minB maxB)[i]? = some a := by
  obtain ⟨tl, htl⟩ := roundsConcat_split colors t minB maxB k (n - k)
  rw [Nat.add_sub_cancel' hk] at htl
  obtain ⟨pre, hpre, hoff⟩ := roundsConcat_eq_offset colors t minB maxB k
  rw [List.getElem?_take] at ha
  split at ha
  · rw [htl, hpre, ← hoff,
      List.getElem?_append_left (by simp only [List.length_append]; omega),
      List.getElem?_append_right (by omega), Nat.add_sub_cancel_left] at ha
    exact ha
  · simp at ha

/-- While no earlier round reached 16 entries or the budget, and the fuel
lasts, the loop is still running. -/
theorem relaxLoop_running_of (colors : List NRGBA) (t minB maxB : Int) (fuel : Nat) :
    ∀ m : Nat,
      (∀ k, m ≤ k → k ≤ m + fuel → (accAfter colors t minB maxB k).length < 16) →
      (∀ k, m < k → k ≤ m + fuel → countAfter k ≠ t) →
      relaxLoop colors t minB maxB fuel (countAfter m) (accAfter colors t minB maxB m)
        = none := by
  induction fuel with
  | zero =>
    intro m hlen _
    rw [relaxLoop_step, if_pos (hlen m (le_refl _) (by omega))]
  | succ f ih =>
    intro m hlen hne
    rw [relaxLoop_step, if_pos (hlen m (le_refl _) (by omega))]
    simp only
    rw [if_neg (hne (m + 1) (by omega) (by omega)),
      ih (m + 1) (fun k h1 h2 => hlen k (by omega) (by omega))
        (fun k h1 h2 => hne k (by omega) (by omega))]
    rfl

/-! ## Properties of one builder round -/

theorem getDistinctColors_entries_far (colors : List NRGBA) (t minB maxB : Int)
    (i j : Nat) (a b : NRGBA) (hij : i ≠ j)
    (ha : (getDistinctColors colors t minB maxB)[i]? = some a)
    (hb : (getDistinctColors colors t minB maxB)[j]? = some b) :
    t ≤ specDistance a b := by
  have hp := getDistinctColors_pairwise colors t minB maxB
  rw [List.pairwise_iff_getElem] at hp
  rw [List.getElem?_eq_some] at ha hb
  obtain ⟨hi, rfl⟩ := ha
  obtain ⟨hj, rfl⟩ := hb
  rw [specDistance_eq]
  rcases Nat.lt_or_gt_of_ne hij with h | h
  · exact hp i j hi hj h
  · rw [distance_comm]
    exact hp j i hj hi h

/-- C1: for every sample sequence, threshold, minBrightness and maxBrightness,
any two colours at different positions `i ≠ j` of the list returned by one call
of `getDistinctColors` have distance `|dR| + |dG| + |dB| ≥ threshold`. -/
theorem getDistinctColors_positions_far_apart (colors : List NRGBA)
    (threshold minBrightness maxBrightness : Int) (i j : Nat) (a b : NRGBA)
    (hij : i ≠ j)
    (ha : (getDistinctColors colors threshold minBrightness maxBrightness)[i]? = some a)
    (hb : (getDistinctColors colors threshold minBrightness maxBrightness)[j]? = some b) :
    threshold ≤ specDistance a b :=
  getDistinctColors_entries_far colors threshold minBrightness maxBrightness i j a b hij ha hb

/-- The theorem of C1 at the samples of the scenario, threshold 50 and the
band `[0, 255]`: positions 0 and 2 hold black and `(120,120,120)`. -/
theorem getDistinctColors_positions_far_apart_witness :
    (getDistinctColors scenarioSamples 50 0 255)[0]? = some (gray 0) ∧
    (getDistinctColors scenarioSamples 50 0 255)[2]? = some (gray 120) ∧
    (50 : Int) ≤ specDistance (gray 0) (gray 120) :=
  ⟨by decide, by decide,
    getDistinctColors_positions_far_apart scenarioSamples 50 0 255 0 2 (gray 0) (gray 120)
      (by decide) (by decide) (by decide)⟩

/-- C2: for every sample sequence, threshold and brightness band (both bounds
in `[0, 255]`), every colour `c` of the list returned by `getDistinctColors`,
and every colour of a palette produced by the Cardinality Enforcer, passes the
Brightness Filter: `distance(c, (0,0,0)) ≥ 3*minBrightness` and
`distance(c, (255,255,255)) ≥ 3*(255-maxBrightness)`. -/
theorem getDistinctColors_within_brightness_band (colors : List NRGBA)
    (threshold minBrightness maxBrightness : Int)
    (hmin : 0 ≤ minBrightness ∧ minBrightness ≤ 255)
    (hmax : 0 ≤ maxBrightness ∧ maxBrightness ≤ 255) :
    (∀ c ∈ getDistinctColors colors threshold minBrightness maxBrightness,
      3 * minBrightness ≤ specDistance c black ∧
      3 * (255 - maxBrightness) ≤ specDistance c white) ∧
    (∀ (fuel rounds : Nat) (p : List NRGBA),
      cardinalityEnforcer fuel colors threshold minBrightness maxBrightness
        = some (rounds, Outcome.palette p) →
      ∀ c ∈ p, 3 * minBrightness ≤ specDistance c black ∧
        3 * (255 - maxBrightness) ≤ specDistance c white) := by
  constructor
  · intro c hc
    rw [specDistance_eq, specDistance_eq, ← passesBrightness_iff hmin hmax]
    exact getDistinctColors_forall_passes colors threshold minBrightness maxBrightness c hc
  · intro fuel rounds p h c hc
    obtain ⟨rfl, -⟩ := cardinalityEnforcer_palette h
    rw [truncate16_eq_take] at hc
    rw [specDistance_eq, specDistance_eq, ← passesBrightness_iff hmin hmax]
    exact accAfter_forall_passes colors threshold minBrightness maxBrightness rounds c
      (List.mem_of_mem_take hc)

/-- The theorem of C2 at the samples of the scenario, threshold 50 and the band
`[10, 245]`: the call returns `[(120,120,120)]`, whose entry is in the band. -/
theorem getDistinctColors_within_brightness_band_witness :
    getDistinctColors scenarioSamples 50 10 245 = [gray 120] ∧
    3 * (10 : Int) ≤ specDistance (gray 120) black ∧
    3 * (255 - (245 : Int)) ≤ specDistance (gray 120) white :=
  ⟨by decide,
    (getDistinctColors_within_brightness_band scenarioSamples 50 10 245
      ⟨by decide, by decide⟩ ⟨by decide, by decide⟩).1 (gray 120) (by decide)⟩

/-- C10: for every colour `c` (its channels are in `[0, 255]` by type) and every
minBrightness, maxBrightness in `[0, 255]`, `c` passes the two brightness tests
of `getDistinctColors` if and only if
`3*minBrightness ≤ c.R + c.G + c.B ≤ 3*maxBrightness`; for every threshold a
call on the single sample `c` keeps it exactly in that case, and a colour of
any result of `getDistinctColors` has its channel sum in the band. -/
theorem brightness_filter_iff_channel_sum (c : NRGBA) (minBrightness maxBrightness : Int)
    (hmin : 0 ≤ minBrightness ∧ minBrightness ≤ 255)
    (hmax : 0 ≤ maxBrightness ∧ maxBrightness ≤ 255) :
    (passesBrightness minBrightness maxBrightness c = true ↔
      3 * minBrightness ≤ (c.R.val : Int) + c.G.val + c.B.val ∧
      (c.R.val : Int) + c.G.val + c.B.val ≤ 3 * maxBrightness) ∧
    (∀ threshold : Int,
      getDistinctColors [c] threshold minBrightness maxBrightness =
        if 3 * minBrightness ≤ (c.R.val : Int) + c.G.val + c.B.val ∧
          (c.R.val : Int) + c.G.val + c.B.val ≤ 3 * maxBrightness then [c] else []) ∧
    (∀ (colors : List NRGBA) (threshold : Int),
      c ∈ getDistinctColors colors threshold minBrightness maxBrightness →
      3 * minBrightness ≤ (c.R.val : Int) + c.G.val + c.B.val ∧
      (c.R.val : Int) + c.G.val + c.B.val ≤ 3 * maxBrightness) := by
  have key : passesBrightness minBrightness maxBrightness c = true ↔
      3 * minBrightness ≤ (c.R.val : Int) + c.G.val + c.B.val ∧
      (c.R.val : Int) + c.G.val + c.B.val ≤ 3 * maxBrightness := by
    rw [passesBrightness_iff hmin hmax, distance_black, distance_white]
    constructor <;> intro h <;> constructor <;> omega
  refine ⟨key, ?_, ?_⟩
  · intro threshold
    unfold getDistinctColors
    rw [distinctLoop_cons]
    simp only [sameAsSome, Bool.not_false, Bool.and_true, distinctLoop, List.nil_append]
    by_cases hb : passesBrightness minBrightness maxBrightness c = true
    · rw [if_pos hb, if_pos (key.mp hb)]
    · rw [if_neg hb, if_neg (fun h => hb (key.mpr h))]
  · intro colors threshold hc
    exact key.mp (getDistinctColors_forall_passes colors threshold minBrightness maxBrightness c hc)

/-- The theorem of C10 at `(120,120,120)` and the band `[10, 245]`. -/
theorem brightness_filter_iff_channel_sum_witness :
    passesBrightness 10 245 (gray 120) = true ↔
      3 * (10 : Int) ≤ ((gray 120).R.val : Int) + (gray 120).G.val + (gray 120).B.val ∧
      ((gray 120).R.val : Int) + (gray 120).G.val + (gray 120).B.val ≤ 3 * (245 : Int) :=
  (brightness_filter_iff_channel_sum (gray 120) 10 245 ⟨by decide, by decide⟩
    ⟨by decide, by decide⟩).1

/-! ## Properties of the Cardinality Enforcer -/

/-- C3: for every sample sequence, threshold (a Go `int`) and brightness band,
the run of the Cardinality Enforcer ends (some amount of fuel gives a result),
and whenever it ends it is either in the failure branch or with a palette of
length exactly 16: no palette of another length is passed on. -/
theorem cardinalityEnforcer_palette_length_sixteen (colors : List NRGBA)
    (threshold minBrightness maxBrightness : Int) (ht : IsGoInt threshold) :
    (∃ fuel, cardinalityEnforcer fuel colors threshold minBrightness maxBrightness ≠ none) ∧
    (∀ (fuel rounds : Nat) (o : Outcome),
      cardinalityEnforcer fuel colors threshold minBrightness maxBrightness = some (rounds, o) →
      o = Outcome.insufficient ∨ ∃ p, o = Outcome.palette p ∧ p.length = 16) := by
  constructor
  · refine ⟨18446744073709551616, ?_⟩
    have hterm := relaxLoop_terminates colors threshold minBrightness maxBrightness ht
      18446744073709551616 0
      (getDistinctColors colors threshold minBrightness maxBrightness)
      (by unfold IsGoInt; omega)
      (by
        have := Int.emod_lt_of_pos (threshold - 0 - 1) (b := 18446744073709551616) (by decide)
        push_cast
        omega)
    intro hcon
    unfold cardinalityEnforcer at hcon
    split at hcon
    · rename_i hnone
      exact hterm hnone
    · simp at hcon
    · simp at hcon
  · intro fuel rounds o h
    cases o with
    | insufficient => exact Or.inl rfl
    | palette p =>
      right
      obtain ⟨rfl, h16, -⟩ := cardinalityEnforcer_palette h
      exact ⟨_, rfl, truncate16_length h16⟩

/-- The theorem of C3 at the samples of the scenario with threshold 50 and the
band `[10, 245]`: 15 rounds of fuel give a palette, of length 16. -/
theorem cardinalityEnforcer_palette_length_sixteen_witness :
    cardinalityEnforcer 15 scenarioSamples 50 10 245
      = some (15, Outcome.palette (List.replicate 16 (gray 120))) ∧
    (Outcome.palette (List.replicate 16 (gray 120)) = Outcome.insufficient ∨
      ∃ p, Outcome.palette (List.replicate 16 (gray 120)) = Outcome.palette p ∧ p.length = 16) :=
  ⟨by decide,
    (cardinalityEnforcer_palette_length_sixteen scenarioSamples 50 10 245
      ⟨by decide, by decide⟩).2 15 15 _ (by decide)⟩

/-- C9: for every sample sequence, brightness band and threshold `t`: if
`getDistinctColors(samples, t, minBrightness, maxBrightness)` has at least 16
entries, the Cardinality Enforcer runs zero relaxation rounds (with any fuel)
and returns exactly the first 16 entries of that list. -/
theorem cardinalityEnforcer_no_round_when_sixteen (colors : List NRGBA)
    (threshold minBrightness maxBrightness : Int)
    (h : 16 ≤ (getDistinctColors colors threshold minBrightness maxBrightness).length)
    (fuel : Nat) :
    cardinalityEnforcer fuel colors threshold minBrightness maxBrightness =
      some (0, Outcome.palette
        ((getDistinctColors colors threshold minBrightness maxBrightness).take 16)) := by
  have := @cardinalityEnforcer_palette_of fuel colors threshold minBrightness maxBrightness 0
    (Nat.zero_le _) (fun k hk => by omega) (fun k h1 h2 => by omega) h
  rw [this, truncate16_eq_take]
  rfl

/-- The theorem of C9 at sixteen grey samples 16 apart, threshold 10 and the
band `[0, 255]`, with no fuel at all. -/
theorem cardinalityEnforcer_no_round_when_sixteen_witness :
    16 ≤ (getDistinctColors sixteenGrays 10 0 255).length ∧
    cardinalityEnforcer 0 sixteenGrays 10 0 255 =
      some (0, Outcome.palette ((getDistinctColors sixteenGrays 10 0 255).take 16)) :=
  ⟨by decide, cardinalityEnforcer_no_round_when_sixteen sixteenGrays 10 0 255 (by decide) 0⟩

/-- C8: for every sample sequence, brightness band and threshold `t` (a Go
`int`, as is `t - 16`): if the Cardinality Enforcer succeeds after `n ≥ 0`
relaxation rounds, the palette equals the first 16 entries of
`getDistinctColors(samples, t) ++ getDistinctColors(samples, t-1) ++ ... ++
getDistinctColors(samples, t-n)`, every round being run on the full sample
sequence with no deduplication across rounds. -/
theorem cardinalityEnforcer_palette_eq_take_concat (colors : List NRGBA)
    (threshold minBrightness maxBrightness : Int) (ht : IsGoInt threshold)
    (hlow : IsGoInt (threshold - 16)) (fuel n : Nat) (p : List NRGBA)
    (h : cardinalityEnforcer fuel colors threshold minBrightness maxBrightness
      = some (n, Outcome.palette p)) :
    p = (roundsConcat colors threshold minBrightness maxBrightness n).take 16 :=
  palette_eq_take_roundsConcat ht hlow h

/-- The theorem of C8 at the samples of the scenario, threshold 50 and the band
`[10, 245]`: success after 15 rounds. -/
theorem cardinalityEnforcer_palette_eq_take_concat_witness :
    cardinalityEnforcer 15 scenarioSamples 50 10 245
      = some (15, Outcome.palette (List.replicate 16 (gray 120))) ∧
    List.replicate 16 (gray 120) = (roundsConcat scenarioSamples 50 10 245 15).take 16 :=
  ⟨by decide,
    cardinalityEnforcer_palette_eq_take_concat scenarioSamples 50 10 245
      ⟨by decide, by decide⟩ ⟨by decide, by decide⟩ 15 15 _ (by decide)⟩

/-- C4, as the claim states it, fails: at the samples of the scenario with
threshold 50 and the band `[10, 245]` the palette is produced after 15 rounds
(final threshold `50 - 15 = 35`) and holds `(120,120,120)` at positions 0 and
1, at distance 0. -/
theorem palette_not_pairwise_far_apart :
    cardinalityEnforcer 15 scenarioSamples 50 10 245
      = some (15, Outcome.palette (List.replicate 16 (gray 120))) ∧
    (List.replicate 16 (gray 120))[0]? = some (gray 120) ∧
    (List.replicate 16 (gray 120))[1]? = some (gray 120) ∧
    ¬ ((50 : Int) - 15 ≤ specDistance (gray 120) (gray 120)) := by
  refine ⟨by decide, by decide, by decide, ?_⟩
  rw [specDistance_eq]
  decide

/-- C4, amended: for every palette produced after `n` rounds, any two colours
at different positions of the palette that lie in the part appended by the same
round `k ≤ n` (positions `roundOffset k + i` and `roundOffset k + j` with
`i ≠ j` inside that round's result) have distance `≥ threshold - k`, the
threshold of that round, hence `≥ threshold - n`, the final one. -/
theorem palette_same_round_far_apart (colors : List NRGBA)
    (threshold minBrightness maxBrightness : Int) (ht : IsGoInt threshold)
    (hlow : IsGoInt (threshold - 16)) (fuel n : Nat) (p : List NRGBA)
    (h : cardinalityEnforcer fuel colors threshold minBrightness maxBrightness
      = some (n, Outcome.palette p))
    (k i j : Nat) (a b : NRGBA) (hk : k ≤ n) (hij : i ≠ j)
    (hi : i < (getDistinctColors colors (threshold - (k : Int)) minBrightness
      maxBrightness).length)
    (hj : j < (getDistinctColors colors (threshold - (k : Int)) minBrightness
      maxBrightness).length)
    (ha : p[roundOffset colors threshold minBrightness maxBrightness k + i]? = some a)
    (hb : p[roundOffset colors threshold minBrightness maxBrightness k + j]? = some b) :
    threshold - (k : Int) ≤ specDistance a b ∧
      threshold - (n : Int) ≤ specDistance a b := by
  have hp := palette_eq_take_roundsConcat ht hlow h
  subst hp
  have h1 := getDistinctColors_entries_far colors (threshold - (k : Int)) minBrightness
    maxBrightness i j a b hij (palette_entry_of_round hk hi ha) (palette_entry_of_round hk hj hb)
  refine ⟨h1, le_trans ?_ h1⟩
  have : (k : Int) ≤ (n : Int) := by exact_mod_cast hk
  omega

/-- The theorem of the amended C4 at eight grey samples, threshold 50 and the
band `[0, 255]`: the palette is produced after 2 rounds; round 1 (threshold 49)
starts at position 4 and its entries 0 and 1 are `(0,0,0)` and `(32,32,32)`. -/
theorem palette_same_round_far_apart_witness :
    cardinalityEnforcer 2 eightGrays 50 0 255 = some (2, Outcome.palette
      [gray 0, gray 32, gray 64, gray 96, gray 0, gray 32, gray 64, gray 96,
       gray 0, gray 16, gray 32, gray 48, gray 64, gray 80, gray 96, gray 112]) ∧
    roundOffset eightGrays 50 0 255 1 = 4 ∧
    (50 : Int) - (1 : Nat) ≤ specDistance (gray 0) (gray 32) ∧
    (50 : Int) - (2 : Nat) ≤ specDistance (gray 0) (gray 32) :=
  ⟨by decide, by decide,
    palette_same_round_far_apart eightGrays 50 0 255 ⟨by decide, by decide⟩
      ⟨by decide, by decide⟩ 2 2
      [gray 0, gray 32, gray 64, gray 96, gray 0, gray 32, gray 64, gray 96,
       gray 0, gray 16, gray 32, gray 48, gray 64, gray 80, gray 96, gray 112]
      (by decide) 1 0 1 (gray 0) (gray 32) (by decide) (by decide)
      (by decide) (by decide) (by decide) (by decide)⟩

/-- C5, as the claim states it, fails at its own witness: the samples
`(0,0,0), (255,255,255), (120,120,120), (130,130,130)` have fewer than 16
brightness-admissible samples (2), the threshold 50 is in `[0, 255]`, and with
the band `[10, 245]` the Cardinality Enforcer does not fail: for every fuel of
at least 15 rounds it returns a palette, sixteen times `(120,120,120)`, after
15 rounds. -/
theorem scenario_does_not_fail :
    (getDistinctColors scenarioSamples 0 10 245).length < 16 ∧
    ∀ fuel : Nat, 15 ≤ fuel →
      cardinalityEnforcer fuel scenarioSamples 50 10 245
        = some (15, Outcome.palette (List.replicate 16 (gray 120))) := by
  refine ⟨by decide, ?_⟩
  intro fuel hfuel
  rw [@cardinalityEnforcer_palette_of fuel scenarioSamples 50 10 245 15 hfuel
    (by decide) (fun k h1 h2 => by rw [countAfter_eq (by omega)]; omega) (by decide)]
  decide

/-- C5, amended: for every sample sequence, brightness band and initial
threshold in `[1, 255]`: if `(threshold + 1) * m < 16`, where `m` is the number
of brightness-admissible samples (the length of `getDistinctColors` at
threshold 0), the Cardinality Enforcer ends in the insufficient-colors failure,
in round `threshold`, and returns no palette. -/
theorem insufficient_when_too_few_admissible (colors : List NRGBA)
    (threshold minBrightness maxBrightness : Int)
    (ht : 1 ≤ threshold ∧ threshold ≤ 255)
    (hm : (threshold + 1) *
      ((getDistinctColors colors 0 minBrightness maxBrightness).length : Int) < 16)
    (fuel : Nat) (hfuel : threshold ≤ (fuel : Int)) :
    cardinalityEnforcer fuel colors threshold minBrightness maxBrightness
      = some (threshold.toNat, Outcome.insufficient) := by
  have hc : ∀ k : Nat, (k : Int) ≤ threshold → countAfter k = (k : Int) :=
    fun k hk => countAfter_eq (by omega)
  apply cardinalityEnforcer_insufficient_of
  · omega
  · omega
  · rw [hc _ (by omega)]
    omega
  · intro k hk
    have h1 := accAfter_length_le colors threshold minBrightness maxBrightness k
    have h2 : ((k + 1 : Nat) : Int) ≤ threshold + 1 := by omega
    have h3 : (((k + 1) * (getDistinctColors colors 0 minBrightness maxBrightness).length : Nat)
        : Int) ≤ (threshold + 1) *
          ((getDistinctColors colors 0 minBrightness maxBrightness).length : Int) := by
      push_cast
      exact mul_le_mul_of_nonneg_right (by push_cast at h2; exact h2) (by positivity)
    omega
  · intro k hk1 hk2
    rw [hc k (by omega)]
    omega

/-- The theorem of the amended C5 at the samples of the scenario, threshold 3
and the band `[10, 245]`: two admissible samples, `(3 + 1) * 2 < 16`, failure
in round 3. -/
theorem insufficient_when_too_few_admissible_witness :
    (((3 : Int) + 1) * ((getDistinctColors scenarioSamples 0 10 245).length : Int) < 16) ∧
    cardinalityEnforcer 3 scenarioSamples 3 10 245 = some (3, Outcome.insufficient) :=
  ⟨by decide,
    insufficient_when_too_few_admissible scenarioSamples 3 10 245 ⟨by decide, by decide⟩
      (by decide) 3 (by decide)⟩

/-- C6, the code at the failing input: eight grey samples, threshold 1, band
`[0, 255]`.  Round 1 (the round whose number equals the threshold) brings the
accumulator to 16 entries, and the run still ends in the insufficient-colors
failure, for every fuel of at least one round. -/
theorem abort_although_sixteen_reached :
    (getDistinctColors eightGrays 1 0 255).length = 8 ∧
    (getDistinctColors eightGrays 1 0 255 ++ getDistinctColors eightGrays (1 - 1) 0 255).length
      = 16 ∧
    ∀ fuel : Nat, 1 ≤ fuel →
      cardinalityEnforcer fuel eightGrays 1 0 255 = some (1, Outcome.insufficient) := by
  refine ⟨by decide, by decide, ?_⟩
  intro fuel hfuel
  exact @cardinalityEnforcer_insufficient_of fuel eightGrays 1 0 255 1 (le_refl _) hfuel
    (by decide) (by decide) (fun k h1 h2 => by omega)

/-- C7, the code at the failing inputs with threshold 0: on the single sample
`(100,100,100)` with the band `[0, 255]` the loop runs 15 relaxation rounds,
more than the budget of 0 rounds; on the single sample `(0,0,0)` with the band
`[50, 200]` (no admissible sample) the loop is still running after any number
of rounds below `2^64`. -/
theorem threshold_zero_exceeds_round_budget :
    cardinalityEnforcer 15 [gray 100] 0 0 255
      = some (15, Outcome.palette (List.replicate 16 (gray 100))) ∧
    ∀ fuel : Nat, (fuel : Int) < 18446744073709551616 →
      cardinalityEnforcer fuel [gray 0] 0 50 200 = none := by
  refine ⟨by decide, ?_⟩
  intro fuel hfuel
  rw [cardinalityEnforcer_eq, relaxLoop_running_of [gray 0] 0 50 200 fuel 0]
  · intro k _ _
    have h1 := accAfter_length_le [gray 0] 0 50 200 k
    have h0 : (getDistinctColors [gray 0] 0 50 200).length = 0 := by decide
    rw [h0] at h1
    omega
  · intro k h1 h2
    unfold countAfter wrapInt
    omega

/-- For a threshold in `[1, 255]` the loop does end within `threshold` rounds,
with a palette or with the insufficient-colors failure. -/
theorem rounds_le_threshold (colors : List NRGBA) (threshold minBrightness maxBrightness : Int)
    (ht : 1 ≤ threshold ∧ threshold ≤ 255) (fuel : Nat) (hfuel : threshold ≤ (fuel : Int)) :
    ∃ (n : Nat) (o : Outcome), (n : Int) ≤ threshold ∧
      cardinalityEnforcer fuel colors threshold minBrightness maxBrightness = some (n, o) := by
  have hterm := relaxLoop_terminates colors threshold minBrightness maxBrightness
    (by unfold IsGoInt; omega) fuel 0
    (getDistinctColors colors threshold minBrightness maxBrightness)
    (by unfold IsGoInt; omega) (by omega)
  have hc : ∀ k : Nat, (k : Int) ≤ threshold → countAfter k = (k : Int) :=
    fun k hk => countAfter_eq (by omega)
  cases hres : cardinalityEnforcer fuel colors threshold minBrightness maxBrightness with
  | none =>
    exfalso
    unfold cardinalityEnforcer at hres
    split at hres
    · rename_i hnone
      exact hterm hnone
    · simp at hres
    · simp at hres
  | some r =>
    obtain ⟨n, o⟩ := r
    refine ⟨n, o, ?_, rfl⟩
    cases o with
    | insufficient =>
      obtain ⟨-, -, h3, -, h5⟩ := cardinalityEnforcer_insufficient hres
      by_contra hcon
      exact h5 threshold.toNat (by omega) (by omega) (by rw [hc _ (by omega)]; omega)
    | palette p =>
      obtain ⟨-, -, -, -, h5⟩ := cardinalityEnforcer_palette hres
      by_contra hcon
      exact h5 threshold.toNat (by omega) (by omega) (by rw [hc _ (by omega)]; omega)

/-! ## Further properties of `colorDifference` and of one builder round -/

theorem specDistance_bounds (a b : NRGBA) : 0 ≤ specDistance a b ∧ specDistance a b ≤ 765 := by
  have h1 := a.R.isLt
  have h2 := a.G.isLt
  have h3 := a.B.isLt
  have h4 := b.R.isLt
  have h5 := b.G.isLt
  have h6 := b.B.isLt
  have hr : |(a.R.val : Int) - (b.R.val : Int)| ≤ 255 := abs_le.mpr ⟨by omega, by omega⟩
  have hg : |(a.G.val : Int) - (b.G.val : Int)| ≤ 255 := abs_le.mpr ⟨by omega, by omega⟩
  have hb : |(a.B.val : Int) - (b.B.val : Int)| ≤ 255 := abs_le.mpr ⟨by omega, by omega⟩
  unfold specDistance
  refine ⟨by positivity, by omega⟩

theorem distance_eq_zero_iff (a b : NRGBA) :
    distance a b = 0 ↔ a.R = b.R ∧ a.G = b.G ∧ a.B = b.B := by
  rw [distance_eq]
  have hr := abs_nonneg ((a.R.val : Int) - (b.R.val : Int))
  have hg := abs_nonneg ((a.G.val : Int) - (b.G.val : Int))
  have hb := abs_nonneg ((a.B.val : Int) - (b.B.val : Int))
  constructor
  · intro h
    have h1 : |(a.R.val : Int) - (b.R.val : Int)| = 0 := by omega
    have h2 : |(a.G.val : Int) - (b.G.val : Int)| = 0 := by omega
    have h3 : |(a.B.val : Int) - (b.B.val : Int)| = 0 := by omega
    rw [abs_eq_zero] at h1 h2 h3
    exact ⟨Fin.ext (by omega), Fin.ext (by omega), Fin.ext (by omega)⟩
  · rintro ⟨h1, h2, h3⟩
    rw [h1, h2, h3]
    simp

theorem distinctLoop_append (t minB maxB : Int) (l1 l2 : List NRGBA) :
    ∀ acc : List NRGBA, distinctLoop t minB maxB (l1 ++ l2) acc =
      distinctLoop t minB maxB l2 (distinctLoop t minB maxB l1 acc) := by
  induction l1 with
  | nil => intro acc; simp [distinctLoop]
  | cons c rest ih =>
    intro acc
    rw [List.cons_append, distinctLoop_cons, distinctLoop_cons, ih]

theorem getDistinctColors_sublist (colors : List NRGBA) (t minB maxB : Int) :
    (getDistinctColors colors t minB maxB).Sublist colors := by
  obtain ⟨l, hl, hsub⟩ := distinctLoop_eq_append t minB maxB colors []
  unfold getDistinctColors
  rw [hl, List.nil_append]
  exact hsub.trans (List.filter_sublist colors)

theorem getDistinctColors_head_eq_find (colors : List NRGBA) (t minB maxB : Int) :
    (getDistinctColors colors t minB maxB).head? = colors.find? (passesBrightness minB maxB) := by
  induction colors with
  | nil => rfl
  | cons c rest ih =>
    unfold getDistinctColors at ih ⊢
    rw [distinctLoop_cons]
    by_cases hp : passesBrightness minB maxB c = true
    · obtain ⟨l, hl, -⟩ := distinctLoop_eq_append t minB maxB rest ([] ++ [c])
      simp only [hp, sameAsSome, Bool.not_false, Bool.and_self, if_true]
      rw [hl, List.find?_cons_of_pos _ hp]
      rfl
    · simp only [hp, Bool.false_and, Bool.false_eq_true, if_false]
      rw [ih, List.find?_cons_of_neg _ hp]

theorem distinctLoop_of_pairwise (t minB maxB : Int) (l : List NRGBA) :
    ∀ acc : List NRGBA, (∀ c ∈ l, passesBrightness minB maxB c = true) →
      (acc ++ l).Pairwise (FarApart t) → distinctLoop t minB maxB l acc = acc ++ l := by
  induction l with
  | nil => intro acc _ _; simp [distinctLoop]
  | cons c rest ih =>
    intro acc hpass hpw
    have hc : sameAsSome c t acc = false := by
      rw [sameAsSome_eq_false_iff]
      intro k hk
      rw [List.pairwise_append] at hpw
      have := hpw.2.2 k hk c (List.mem_cons_self _ _)
      unfold FarApart at this
      rw [distance_comm]
      exact this
    rw [distinctLoop_cons, hpass c (List.mem_cons_self _ _), hc]
    simp only [Bool.not_false, Bool.and_self, if_true]
    rw [ih (acc ++ [c]) (fun x hx => hpass x (List.mem_cons_of_mem _ hx))
      (by simpa using hpw)]
    simp

/-- C11: for every two colours `a`, `b` (channels in `[0, 255]` by type) and
every integer threshold, `colorDifference(a, b, threshold)` returns true if and
only if `|a.R-b.R| + |a.G-b.G| + |a.B-b.B| ≥ threshold`, and that sum lies in
`[0, 765]`. -/
theorem colorDifference_iff_sum_ge (a b : NRGBA) (threshold : Int) :
    (colorDifference a b threshold = true ↔ specDistance a b ≥ threshold) ∧
      0 ≤ specDistance a b ∧ specDistance a b ≤ 765 := by
  refine ⟨?_, specDistance_bounds a b⟩
  rw [colorDifference_iff, specDistance_eq]

/-- C13: the distance is symmetric: for every two colours `a`, `b` and every
threshold, `colorDifference(a, b, threshold) = colorDifference(b, a, threshold)`. -/
theorem colorDifference_symmetric (a b : NRGBA) (threshold : Int) :
    colorDifference a b threshold = colorDifference b a threshold ∧
      distance a b = distance b a := by
  refine ⟨?_, distance_comm a b⟩
  unfold colorDifference
  rw [distance_comm]

/-- C17: for every sample sequence, threshold and brightness band, the list
returned by `getDistinctColors` is a subsequence of the sample sequence in
sample order; its first element is the first sample that passes the two
brightness tests (and it is empty when no sample passes), for every threshold;
so the results of any two thresholds start with the same colour. -/
theorem getDistinctColors_subsequence_first_seen (colors : List NRGBA)
    (threshold minBrightness maxBrightness : Int) :
    (getDistinctColors colors threshold minBrightness maxBrightness).Sublist colors ∧
    (getDistinctColors colors threshold minBrightness maxBrightness).head? =
      colors.find? (passesBrightness minBrightness maxBrightness) ∧
    ∀ threshold2 : Int,
      (getDistinctColors colors threshold2 minBrightness maxBrightness).head? =
        (getDistinctColors colors threshold minBrightness maxBrightness).head? := by
  refine ⟨getDistinctColors_sublist _ _ _ _, getDistinctColors_head_eq_find _ _ _ _, ?_⟩
  intro threshold2
  rw [getDistinctColors_head_eq_find, getDistinctColors_head_eq_find]

/-- C18: maximality of a builder round: for every sample sequence
`pre ++ c :: post`, threshold and brightness band, if the sample `c` passes the
two brightness tests and is not appended at its position (the call on
`pre ++ [c]` returns what the call on `pre` returns), then `c` has distance
`< threshold` to some colour accepted from an earlier sample position, and the
colours accepted from `pre` open the result of the whole call. -/
theorem rejected_sample_near_earlier_accepted (pre post : List NRGBA) (c : NRGBA)
    (threshold minBrightness maxBrightness : Int)
    (hpass : passesBrightness minBrightness maxBrightness c = true)
    (hrej : getDistinctColors (pre ++ [c]) threshold minBrightness maxBrightness =
      getDistinctColors pre threshold minBrightness maxBrightness) :
    (∃ k, k ∈ getDistinctColors pre threshold minBrightness maxBrightness ∧
      k ∈ getDistinctColors (pre ++ c :: post) threshold minBrightness maxBrightness ∧
      specDistance c k < threshold) ∧
    ∃ tl, getDistinctColors (pre ++ c :: post) threshold minBrightness maxBrightness =
      getDistinctColors pre threshold minBrightness maxBrightness ++ tl := by
  have hsplit : ∃ tl, getDistinctColors (pre ++ c :: post) threshold minBrightness maxBrightness
      = getDistinctColors pre threshold minBrightness maxBrightness ++ tl := by
    obtain ⟨l, hl, -⟩ := distinctLoop_eq_append threshold minBrightness maxBrightness
      (c :: post) (getDistinctColors pre threshold minBrightness maxBrightness)
    refine ⟨l, ?_⟩
    rw [← hl]
    unfold getDistinctColors
    rw [distinctLoop_append]
  refine ⟨?_, hsplit⟩
  have hsame : sameAsSome c threshold
      (getDistinctColors pre threshold minBrightness maxBrightness) = true := by
    by_contra hcon
    rw [Bool.not_eq_true] at hcon
    unfold getDistinctColors at hrej hcon
    rw [distinctLoop_append, distinctLoop_cons, hpass, hcon] at hrej
    simp only [Bool.not_false, Bool.and_self, if_true, distinctLoop] at hrej
    have := congrArg List.length hrej
    simp at this
  have hnot : ¬ ∀ k ∈ getDistinctColors pre threshold minBrightness maxBrightness,
      threshold ≤ distance c k := by
    rw [← sameAsSome_eq_false_iff, hsame]
    simp
  push_neg at hnot
  obtain ⟨k, hk, hlt⟩ := hnot
  obtain ⟨tl, htl⟩ := hsplit
  refine ⟨k, hk, ?_, by rw [specDistance_eq]; exact hlt⟩
  rw [htl]
  exact List.mem_append_left _ hk

/-- The theorem of C18 at the samples of the scenario, threshold 50 and the
band `[10, 245]`: `(130,130,130)` passes the brightness tests, is not appended,
and is at distance 30 from the accepted `(120,120,120)`. -/
theorem rejected_sample_near_earlier_accepted_witness :
    passesBrightness 10 245 (gray 130) = true ∧
    getDistinctColors ([gray 0, gray 255, gray 120] ++ [gray 130]) 50 10 245 =
      getDistinctColors [gray 0, gray 255, gray 120] 50 10 245 ∧
    ∃ k, k ∈ getDistinctColors [gray 0, gray 255, gray 120] 50 10 245 ∧
      k ∈ getDistinctColors ([gray 0, gray 255, gray 120] ++ gray 130 :: []) 50 10 245 ∧
      specDistance (gray 130) k < 50 :=
  ⟨by decide, by decide,
    (rejected_sample_near_earlier_accepted [gray 0, gray 255, gray 120] [] (gray 130) 50 10 245
      (by decide) (by decide)).1⟩

/-- C19: for every sample sequence and brightness band and every threshold
`≤ 0`, `getDistinctColors` returns exactly the samples that pass the two
brightness tests, in sample order and with repeated samples kept; for a band
within `[0, 255]` these are the samples that pass the Brightness Filter of the
specification. -/
theorem getDistinctColors_nonpos_eq_filter (colors : List NRGBA)
    (threshold minBrightness maxBrightness : Int) (ht : threshold ≤ 0) :
    getDistinctColors colors threshold minBrightness maxBrightness =
      colors.filter (passesBrightness minBrightness maxBrightness) ∧
    ((0 ≤ minBrightness ∧ minBrightness ≤ 255) → (0 ≤ maxBrightness ∧ maxBrightness ≤ 255) →
      getDistinctColors colors threshold minBrightness maxBrightness =
        colors.filter (specPassesBrightness minBrightness maxBrightness)) := by
  refine ⟨getDistinctColors_nonpos ht colors minBrightness maxBrightness, ?_⟩
  intro hmin hmax
  rw [getDistinctColors_nonpos ht]
  apply List.filter_congr
  intro c _
  rw [Bool.eq_iff_iff, passesBrightness_iff hmin hmax]
  simp only [specPassesBrightness, specDistance_eq, Bool.not_eq_true', Bool.or_eq_false_iff,
    decide_eq_false_iff_not, not_lt]

/-- The theorem of C19 at the samples of the scenario followed by a second
`(120,120,120)`, threshold 0 and the band `[10, 245]`. -/
theorem getDistinctColors_nonpos_eq_filter_witness :
    getDistinctColors (scenarioSamples ++ [gray 120]) 0 10 245 =
      (scenarioSamples ++ [gray 120]).filter (passesBrightness 10 245) ∧
    (scenarioSamples ++ [gray 120]).filter (passesBrightness 10 245) =
      [gray 120, gray 130, gray 120] :=
  ⟨(getDistinctColors_nonpos_eq_filter (scenarioSamples ++ [gray 120]) 0 10 245 (by decide)).1,
    by decide⟩

/-- C20: `getDistinctColors` is idempotent: for every sample sequence `s`,
threshold `t` and brightness band,
`getDistinctColors(getDistinctColors(s, t, minB, maxB), t, minB, maxB) =
getDistinctColors(s, t, minB, maxB)`. -/
theorem getDistinctColors_idempotent (colors : List NRGBA)
    (threshold minBrightness maxBrightness : Int) :
    getDistinctColors (getDistinctColors colors threshold minBrightness maxBrightness)
        threshold minBrightness maxBrightness =
      getDistinctColors colors threshold minBrightness maxBrightness := by
  have h := distinctLoop_of_pairwise threshold minBrightness maxBrightness
    (getDistinctColors colors threshold minBrightness maxBrightness) []
    (getDistinctColors_forall_passes colors threshold minBrightness maxBrightness)
    (by simpa using getDistinctColors_pairwise colors threshold minBrightness maxBrightness)
  simpa [getDistinctColors] using h

/-- C15: for every sample sequence, brightness band and threshold `t` (a Go
`int`, as is `t - 16`): if the Cardinality Enforcer returns a palette after
`n ≥ 1` relaxation rounds, the accumulator after `n - 1` rounds
(`getDistinctColors` at the thresholds `t, t-1, ..., t-n+1`, concatenated) had
fewer than 16 entries. -/
theorem no_round_beyond_necessary (colors : List NRGBA)
    (threshold minBrightness maxBrightness : Int) (ht : IsGoInt threshold)
    (hlow : IsGoInt (threshold - 16)) (fuel n : Nat) (p : List NRGBA)
    (h : cardinalityEnforcer fuel colors threshold minBrightness maxBrightness
      = some (n, Outcome.palette p)) (hn : 1 ≤ n) :
    (roundsConcat colors threshold minBrightness maxBrightness (n - 1)).length < 16 := by
  obtain ⟨-, h16, -, hlen, hne⟩ := cardinalityEnforcer_palette h
  rw [← accAfter_eq_roundsConcat colors threshold minBrightness maxBrightness n
    (round_threshold_of_success colors minBrightness maxBrightness ht hlow h16 hlen hne)
    (n - 1) (by omega)]
  exact hlen (n - 1) (by omega)

/-- The theorem of C15 at the samples of the scenario, threshold 50 and the
band `[10, 245]`: the palette comes after 15 rounds, and after 14 rounds the
accumulator had 15 entries. -/
theorem no_round_beyond_necessary_witness :
    cardinalityEnforcer 15 scenarioSamples 50 10 245
      = some (15, Outcome.palette (List.replicate 16 (gray 120))) ∧
    (roundsConcat scenarioSamples 50 10 245 (15 - 1)).length < 16 :=
  ⟨by decide,
    no_round_beyond_necessary scenarioSamples 50 10 245 ⟨by decide, by decide⟩
      ⟨by decide, by decide⟩ 15 15 (List.replicate 16 (gray 120)) (by decide) (by decide)⟩

/-! ## The flag checks and the sampler -/

theorem checkFlags_accepted_iff (threshold minBrightness maxBrightness : Int) :
    checkFlags threshold minBrightness maxBrightness = FlagCheck.accepted ↔
      threshold ≤ 255 ∧ minBrightness ≤ 255 ∧ maxBrightness ≤ 255 := by
  unfold checkFlags
  split_ifs with h1 h2
  · simp only [reduceCtorEq, false_iff]
    omega
  · simp only [reduceCtorEq, false_iff]
    omega
  · simp only [true_iff]
    omega

theorem sampleColumn_eq (img : Image) (x : Nat) (fuel : Nat) :
    ∀ (y : Nat) (colors : List NRGBA), (img.h - y + 4) / 5 ≤ fuel →
      sampleColumn img x fuel y colors =
        some (colors ++ (List.range ((img.h - y + 4) / 5)).map
          (fun j => img.pixel x (y + 5 * j))) := by
  induction fuel with
  | zero =>
    intro y colors hfuel
    rw [sampleColumn]
    have hy : ¬ y < img.h := by omega
    have h0 : (img.h - y + 4) / 5 = 0 := by omega
    rw [if_neg hy, h0]
    simp
  | succ f ih =>
    intro y colors hfuel
    rw [sampleColumn]
    split
    · rename_i hy
      have hn : (img.h - y + 4) / 5 = (img.h - (y + 5) + 4) / 5 + 1 := by omega
      rw [ih (y + 5) _ (by omega), hn, List.range_succ_eq_map, List.map_cons, List.map_map,
        List.append_assoc]
      congr 2
      simp only [List.singleton_append, Nat.mul_zero, Nat.add_zero, List.cons.injEq, true_and]
      apply List.map_congr_left
      intro j _
      simp only [Function.comp_apply]
      congr 1
      omega
    · rename_i hy
      have h0 : (img.h - y + 4) / 5 = 0 := by omega
      rw [h0]
      simp

theorem sampleImage_eq (img : Image) (fuel : Nat) :
    ∀ (x : Nat) (colors : List NRGBA), (img.w - x + 4) / 5 ≤ fuel →
      sampleImage img fuel x colors =
        some (colors ++ (List.range ((img.w - x + 4) / 5)).flatMap
          (fun i => (List.range (ceilDiv5 img.h)).map
            (fun j => img.pixel (x + 5 * i) (5 * j)))) := by
  induction fuel with
  | zero =>
    intro x colors hfuel
    rw [sampleImage]
    have hx : ¬ x < img.w := by omega
    have h0 : (img.w - x + 4) / 5 = 0 := by omega
    rw [if_neg hx, h0]
    simp
  | succ f ih =>
    intro x colors hfuel
    rw [sampleImage]
    split
    · rename_i hx
      have hn : (img.w - x + 4) / 5 = (img.w - (x + 5) + 4) / 5 + 1 := by omega
      rw [sampleColumn_eq img x img.h 0 colors (by omega)]
      simp only
      rw [ih (x + 5) _ (by omega), hn, List.range_succ_eq_map, List.flatMap_cons,
        List.append_assoc]
      congr 2
      simp only [Nat.sub_zero, Nat.zero_add, Nat.mul_zero, Nat.add_zero, ceilDiv5]
      congr 1
      unfold List.flatMap
      rw [List.map_map]
      congr 1
      apply List.map_congr_left
      intro i _
      simp only [Function.comp_apply]
      apply List.map_congr_left
      intro j _
      congr 1
      omega
    · rename_i hx
      have h0 : (img.w - x + 4) / 5 = 0 := by omega
      rw [h0]
      simp

theorem sampler_eq_specSamples (img : Image) : sampler img = some (specSamples img) := by
  unfold sampler
  rw [sampleImage_eq img img.w 0 [] (by omega)]
  simp only [Nat.sub_zero, Nat.zero_add, List.nil_append, specSamples, ceilDiv5]

theorem grid_length {α : Type} (f : Nat → Nat → α) (a b : Nat) :
    ((List.range a).flatMap (fun i => (List.range b).map (f i))).length = a * b := by
  induction a with
  | zero => simp
  | succ a ih =>
    rw [List.range_succ, List.flatMap_append, List.length_append, ih, List.flatMap_singleton,
      List.length_map, List.length_range, Nat.succ_mul]

theorem grid_getElem {α : Type} (f : Nat → Nat → α) (a b i j : Nat) (hi : i < a) (hj : j < b) :
    ((List.range a).flatMap (fun i => (List.range b).map (f i)))[i * b + j]? = some (f i j) := by
  induction a with
  | zero => omega
  | succ a ih =>
    rw [List.range_succ, List.flatMap_append, List.flatMap_singleton]
    rcases Nat.lt_or_ge i a with hlt | hge
    · have hb : i * b + j < a * b := by
        calc i * b + j < i * b + b := by omega
          _ = (i + 1) * b := (Nat.succ_mul i b).symm
          _ ≤ a * b := Nat.mul_le_mul_right b hlt
      rw [List.getElem?_append_left (by rw [grid_length]; exact hb)]
      exact ih hlt
    · have hia : i = a := by omega
      subst hia
      rw [List.getElem?_append_right (by rw [grid_length]; omega), grid_length,
        Nat.add_sub_cancel_left, List.getElem?_map, List.getElem?_range hj]
      rfl

theorem specSamples_congr (img img2 : Image) (hw : img2.w = img.w) (hh : img2.h = img.h)
    (hpix : ∀ i j, 5 * i < img.w → 5 * j < img.h →
      img2.pixel (5 * i) (5 * j) = img.pixel (5 * i) (5 * j)) :
    specSamples img2 = specSamples img := by
  unfold specSamples List.flatMap
  rw [hw, hh]
  congr 1
  apply List.map_congr_left
  intro i hi
  apply List.map_congr_left
  intro j hj
  rw [List.mem_range] at hi hj
  unfold ceilDiv5 at hi hj
  exact hpix i j (by omega) (by omega)

/-- C12, as the claim states it, fails: the sampler produces the transparent
pixel `(0,0,0,0)` and opaque black `(0,0,0,255)` from an image of 10 by 5
pixels; they are different colour values, their distance is 0 and
`colorDifference(a, b, 1)` returns false. -/
theorem distance_zero_of_unequal_colours :
    sampler twoColumnImage = some [transparent, black] ∧
    distance transparent black = 0 ∧
    colorDifference transparent black 1 = false ∧
    transparent ≠ black := by
  decide

/-- C12, amended: for every two colours `a` and `b` the distance computed by
`colorDifference` is zero if and only if `a` and `b` have equal red, green and
blue channels (the alpha channel is not read); equivalently
`colorDifference(a, b, 1)` returns false exactly then; for colours of equal
alpha this is `a = b`. -/
theorem distance_zero_iff_equal_rgb (a b : NRGBA) :
    (distance a b = 0 ↔ a.R = b.R ∧ a.G = b.G ∧ a.B = b.B) ∧
    (colorDifference a b 1 = false ↔ a.R = b.R ∧ a.G = b.G ∧ a.B = b.B) ∧
    (a.A = b.A → (distance a b = 0 ↔ a = b)) := by
  refine ⟨distance_eq_zero_iff a b, ?_, ?_⟩
  · rw [← distance_eq_zero_iff, ← Bool.not_eq_true, colorDifference_iff]
    have := distance_nonneg a b
    omega
  · intro hA
    rw [distance_eq_zero_iff]
    constructor
    · rintro ⟨h1, h2, h3⟩
      cases a
      cases b
      simp_all
    · rintro rfl
      exact ⟨rfl, rfl, rfl⟩

/-- C14, the code at the failing inputs: the flag checks accept a threshold of
`-1`, a minBrightness of `-1` and a maxBrightness of `-1` (the other two flags
at their defaults 50, 50 and 200), so the sampling and the core are reached
with a value outside `[0, 255]`. -/
theorem negative_flags_reach_core :
    checkFlags (-1) 50 200 = FlagCheck.accepted ∧
    checkFlags 50 (-1) 200 = FlagCheck.accepted ∧
    checkFlags 50 50 (-1) = FlagCheck.accepted := by
  decide

/-- C16: for every image of width `W` and height `H` the sampler with stride 5
returns the pixels at `(5*i, 5*j)`, `5*i < W`, `5*j < H`, with `x` in the outer
loop: exactly `ceil(W/5) * ceil(H/5)` colours, the colour at index
`i * ceil(H/5) + j` being the converted pixel at `(5*i, 5*j)`; no pixel at
another coordinate has a part in the result. -/
theorem sampler_stride_five (img : Image) :
    sampler img = some (specSamples img) ∧
    (specSamples img).length = ceilDiv5 img.w * ceilDiv5 img.h ∧
    (∀ i j, 5 * i < img.w → 5 * j < img.h →
      (specSamples img)[i * ceilDiv5 img.h + j]? = some (img.pixel (5 * i) (5 * j))) ∧
    (∀ img2 : Image, img2.w = img.w → img2.h = img.h →
      (∀ i j, 5 * i < img.w → 5 * j < img.h →
        img2.pixel (5 * i) (5 * j) = img.pixel (5 * i) (5 * j)) →
      sampler img2 = sampler img) := by
  refine ⟨sampler_eq_specSamples img, grid_length _ _ _, ?_, ?_⟩
  · intro i j hi hj
    unfold specSamples
    exact grid_getElem (fun i j => img.pixel (5 * i) (5 * j)) _ _ i j
      (by unfold ceilDiv5; omega) (by unfold ceilDiv5; omega)
  · intro img2 hw hh hpix
    rw [sampler_eq_specSamples, sampler_eq_specSamples, specSamples_congr img img2 hw hh hpix]

/-- The theorem of C16 at an image of 12 by 7 pixels: 3 columns of 2 samples,
and index `1 * 2 + 1` holds the pixel at `(5, 5)`. -/
theorem sampler_stride_five_witness :
    sampler gradientImage = some (specSamples gradientImage) ∧
    (specSamples gradientImage).length = 6 ∧
    (specSamples gradientImage)[1 * ceilDiv5 gradientImage.h + 1]?
      = some (gradientImage.pixel (5 * 1) (5 * 1)) :=
  ⟨(sampler_stride_five gradientImage).1, by decide,
    (sampler_stride_five gradientImage).2.2.1 1 1 (by decide) (by decide)⟩

end Schemer
